import Mathlib

/-!
Verification of the proportional disk-usage attribution engine of
`device_stats.py`.  The definitions below are a shallow embedding of the
relevant Python code: the `du`-output parsing, the proportional rescaling
against an authoritative total, the significance filter, the stable
descending sort, the truncation to a top-N budget, the `other` remainder
bucket, and the one-level recursive descent into top entries.  Python
floats are modelled as exact rationals (`ℚ`); machine integers as `Int`.
-/

namespace DeviceStats

/-- Splits a string at the first tab character, modelling Python
`line.split(chr(9), 1)` on the character list: `some (before, after)`
when a tab occurs, `none` otherwise. -/
def splitTab1Aux : List Char → Option (List Char × List Char)
  | [] => none
  | c :: cs =>
    if c = '\t' then some ([], cs)
    else
      match splitTab1Aux cs with
      | some (l, r) => some (c :: l, r)
      | none => none

/-- Models Python `line.split(tab, 1)`: a one-element list when the line
has no tab, otherwise the two pieces around the first tab. -/
def splitTab1 (s : String) : List String :=
  match splitTab1Aux s.toList with
  | some (l, r) => [String.mk l, String.mk r]
  | none => [s]

/-- Value of a list of decimal digit characters. -/
def digitsToNat (cs : List Char) : Nat :=
  cs.foldl (fun n c => 10 * n + (c.toNat - Char.toNat '0')) 0

/-- Models Python `int(s)` as used on `du` size fields: surrounding
whitespace ignored, an optional single leading sign, then a nonempty run
of decimal digits; any other shape raises `ValueError`, modelled as
`none`. -/
def pyInt? (s : String) : Option Int :=
  let core := ((s.toList.dropWhile Char.isWhitespace).reverse.dropWhile
    Char.isWhitespace).reverse
  match core with
  | [] => none
  | c :: rest =>
    let signed : Int × List Char :=
      if c = '-' then (-1, rest) else if c = '+' then (1, rest) else (1, c :: rest)
    if signed.2 ≠ [] ∧ signed.2.all Char.isDigit then
      some (signed.1 * (digitsToNat signed.2 : Int))
    else none

/-- One raw directory entry parsed from a `du` output line:
`(size in bytes, path)`. -/
structure DirEntry where
  bytes : Int
  path : String
deriving DecidableEq, Repr

/-- Parses one `du` line in the breakdown loops: split at the first tab,
require exactly two fields, skip the excluded path (`/`, the network
volume root, or the queried directory itself), and skip lines whose size
field is not an integer (Python catches the `ValueError` and continues). -/
def parseDuLine (exclude : String) (line : String) : Option DirEntry :=
  match splitTab1 line with
  | [sz, p] =>
    if p ≠ exclude then (pyInt? sz).map fun n => ⟨n, p⟩ else none
  | _ => none

/-- Parses the `du` output lines of one sampling call: the final line
(the queried path's own aggregate) is dropped, the rest are parsed
individually, unparsable ones skipped. -/
def parseDuLines (exclude : String) (lines : List String) : List DirEntry :=
  lines.dropLast.filterMap (parseDuLine exclude)

/-- Sum of the raw byte sizes of a sibling set (`total_bytes` in the
source). -/
def sumBytes (dirs : List DirEntry) : Int :=
  (dirs.map (·.bytes)).sum

/-- The reconciliation scale factor: authoritative total over the sum of
raw sibling sizes. -/
def scaleFactor (auth total : ℚ) : ℚ := auth / total

/-- Scaled size in GB of one entry: `(size_bytes * scale_factor) / 1e9`
in the source. -/
def scaledGB (factor : ℚ) (bytes : Int) : ℚ :=
  ((bytes : ℚ) * factor) / 1000000000

/-- A reconciled entry: scaled size in GB plus its path.  The scaled
byte count of the entry is `gb * 1e9`. -/
structure ScaledEntry where
  gb : ℚ
  path : String
deriving DecidableEq, Repr

/-- The Reconciler: applies the scale factor to every sibling entry. -/
def scaleEntries (factor : ℚ) (dirs : List DirEntry) : List ScaledEntry :=
  dirs.map fun e => ⟨scaledGB factor e.bytes, e.path⟩

/-- Inserts `a` into an already descending list: `a` goes before the
first element whose key is less than or equal to its own, so an element
never jumps ahead of an earlier-enumerated element with the same key. -/
def insertDescBy {α β : Type} [LinearOrder β] (key : α → β) (a : α) :
    List α → List α
  | [] => [a]
  | b :: l => if key b ≤ key a then a :: b :: l else b :: insertDescBy key a l

/-- Stable descending sort by a key, modelling Python
`list.sort(key=lambda x: x[0], reverse=True)`: descending by key, equal
keys kept in original enumeration order. -/
def sortDescBy {α β : Type} [LinearOrder β] (key : α → β) :
    List α → List α
  | [] => []
  | a :: l => insertDescBy key a (sortDescBy key l)

/-- Stable descending sort of scaled entries by scaled size. -/
def sortDesc (l : List ScaledEntry) : List ScaledEntry :=
  sortDescBy (·.gb) l

/-- The significance filter: entries whose scaled size is at least the
threshold (`if scaled_gb >= threshold` in the source). -/
def significantOf (θ factor : ℚ) (dirs : List DirEntry) : List ScaledEntry :=
  (scaleEntries factor dirs).filter fun e => decide (θ ≤ e.gb)

/-- Filter, stable descending sort and truncation to the top-N budget:
the entries one level of the breakdown displays. -/
def levelShown (θ factor : ℚ) (topN : Nat) (dirs : List DirEntry) :
    List ScaledEntry :=
  (sortDesc (significantOf θ factor dirs)).take topN

/-- Sum of the displayed scaled sizes (`shown_total` in the source). -/
def shownTotal (l : List ScaledEntry) : ℚ :=
  (l.map (·.gb)).sum

/-- Result of one level of the breakdown: the displayed entries, the
`other` remainder, and whether the `(other)` line is printed. -/
structure LevelResult where
  shown : List ScaledEntry
  other : ℚ
  otherShown : Bool
deriving DecidableEq, Repr

/-- The root-container-filesystem breakdown on the parsed sibling set
(lines 373-427 of the source): only when some entry parsed and the raw
total is positive, scale against `df`'s used-GB figure, filter at
0.5 GB, sort, truncate to 5, and compute `other = used - shown_total`,
printed only when it exceeds 0.5 GB.  Otherwise the whole breakdown is
skipped (`none`). -/
def containerLevelOf (usedGB : Int) (dirs : List DirEntry) : Option LevelResult :=
  let totalBytes := sumBytes dirs
  if dirs ≠ [] ∧ 0 < totalBytes then
    let factor := scaleFactor ((usedGB : ℚ) * 1000000000) (totalBytes : ℚ)
    let shown := levelShown (1 / 2) factor 5 dirs
    let other := (usedGB : ℚ) - shownTotal shown
    some ⟨shown, other, decide ((1 : ℚ) / 2 < other)⟩
  else none

/-- The root-container-filesystem breakdown from the raw `du` lines
(lines 356-427 of the source): parse excluding `/`, then break down. -/
def containerLevel (usedGB : Int) (lines : List String) : Option LevelResult :=
  containerLevelOf usedGB (parseDuLines "/" lines)

/-- Round-half-to-even on rationals, the rounding mode of Python
`round`. -/
def pyRoundHalfEven (x : ℚ) : Int :=
  let f := Int.floor x
  let r := x - f
  if r < 1 / 2 then f
  else if 1 / 2 < r then f + 1
  else if Even f then f else f + 1

/-- Models `bytes_to_gb`: bytes over 1e9, rounded to one decimal place
with Python `round`. -/
def bytes_to_gb (b : Int) : ℚ :=
  (pyRoundHalfEven ((b : ℚ) / 1000000000 * 10) : ℚ) / 10

/-- The network-volume breakdown on the parsed sibling set (lines
467-520 of the source): scale against the volume's `du -sb` byte count,
filter at 0.1 GB, truncate to 5, and compute
`other = ai_volume_usage_gb - shown_total` against the rounded GB
total, printed only when it exceeds 0.1 GB. -/
def volumeLevelOf (usageBytes : Int) (dirs : List DirEntry) : Option LevelResult :=
  let totalBytes := sumBytes dirs
  if dirs ≠ [] ∧ 0 < totalBytes then
    let factor := scaleFactor (usageBytes : ℚ) (totalBytes : ℚ)
    let shown := levelShown (1 / 10) factor 5 dirs
    let other := bytes_to_gb usageBytes - shownTotal shown
    some ⟨shown, other, decide ((1 : ℚ) / 10 < other)⟩
  else none

/-- The network-volume breakdown from the raw `du` lines (lines 448-520
of the source): parse excluding the volume root, then break down. -/
def volumeLevel (usageBytes : Int) (lines : List String) : Option LevelResult :=
  volumeLevelOf usageBytes (parseDuLines "/ai_network_volume" lines)

/-- Outcome of one nested sampling call: `failure` models the
`except: pass` around the per-entry `du` invocation (timeout or any
other exception), `output` the stripped stdout lines. -/
inductive SampleOutcome where
  | failure
  | output (lines : List String)

/-- The nested breakdown of one displayed entry (lines 390-419 and
484-512 of the source): on a sampling failure there are no children;
otherwise parse the child lines excluding the parent path, and when a
child parsed and the raw child total is positive, scale against the
parent entry's own scaled byte count `parentGB * 1e9`, filter, sort and
truncate to 3. -/
def subLevelOf (θ parentGB : ℚ) (dirs : List DirEntry) : List ScaledEntry :=
  let subTotal := sumBytes dirs
  if dirs ≠ [] ∧ 0 < subTotal then
    levelShown θ (scaleFactor (parentGB * 1000000000) (subTotal : ℚ)) 3 dirs
  else []

/-- The nested breakdown of one displayed entry from its sampling
outcome: a failure contributes no children, an output is parsed
excluding the parent path and broken down against the parent's own
scaled size. -/
def subLevel (θ parentGB : ℚ) (parentPath : String) :
    SampleOutcome → List ScaledEntry
  | .failure => []
  | .output lines => subLevelOf θ parentGB (parseDuLines parentPath lines)

/-- One displayed top-level entry together with its nested children. -/
structure TopEntry where
  entry : ScaledEntry
  children : List ScaledEntry
deriving DecidableEq, Repr

/-- A two-level breakdown report: each displayed entry with its
children, plus the level's `other` remainder. -/
structure Report where
  shown : List TopEntry
  other : ℚ
  otherShown : Bool
deriving DecidableEq, Repr

/-- Attaches to each displayed entry of a level the nested breakdown
obtained from that entry's own sampling call. -/
def reportOf (θ : ℚ) (r : LevelResult) (samples : String → SampleOutcome) :
    Report :=
  ⟨r.shown.map fun e => ⟨e, subLevel θ e.gb e.path (samples e.path)⟩,
    r.other, r.otherShown⟩

/-- The full two-level container-filesystem report on the parsed root
sibling set: the root level plus one nested level per displayed entry. -/
def containerReportOf (usedGB : Int) (dirs : List DirEntry)
    (samples : String → SampleOutcome) : Option Report :=
  (containerLevelOf usedGB dirs).map fun r => reportOf (1 / 2) r samples

/-- The full two-level container-filesystem report from the raw `du`
lines of the root sampling call. -/
def containerReport (usedGB : Int) (lines : List String)
    (samples : String → SampleOutcome) : Option Report :=
  containerReportOf usedGB (parseDuLines "/" lines) samples

/-- The tree formed by a breakdown result. -/
inductive UsageTree where
  | node (gb : ℚ) (path : String) (children : List UsageTree)

mutual

/-- Depth of a breakdown tree: a leaf has depth 1. -/
def UsageTree.depth : UsageTree → Nat
  | .node _ _ cs => 1 + UsageTree.depthList cs

/-- Maximum depth over a list of breakdown trees. -/
def UsageTree.depthList : List UsageTree → Nat
  | [] => 0
  | t :: ts => max t.depth (UsageTree.depthList ts)

end

/-- The trees of a two-level report: one node per displayed top entry,
its children the nested entries, which have no children of their own. -/
def reportTrees (r : Report) : List UsageTree :=
  r.shown.map fun te =>
    .node te.entry.gb te.entry.path
      (te.children.map fun c => .node c.gb c.path [])

/-- Scale factor of the path-argument breakdown on the network volume
(lines 553-554 of the source): guarded division, identity when the `du`
total is not positive. -/
def dirScaleVolume (aiVolumeUsageBytes duTotalBytes : Int) : ℚ :=
  if 0 < duTotalBytes then (aiVolumeUsageBytes : ℚ) / (duTotalBytes : ℚ)
  else 1

/-- Scale factor of the path-argument breakdown on the container
filesystem (line 573 of the source): guarded division, identity when
the `du` total is not positive. -/
def dirScaleContainer (dfUsedGB duTotalBytes : Int) : ℚ :=
  if 0 < duTotalBytes then ((dfUsedGB : ℚ) * 1000000000) / (duTotalBytes : ℚ)
  else 1

/-- Result of the path-argument directory breakdown. -/
structure DirResult where
  shown : List ScaledEntry
  estimatedTotalGB : ℚ
  subdirsCount : Nat
  other : ℚ
  otherShown : Bool
deriving DecidableEq, Repr

/-- The path-argument directory breakdown (lines 577-625 of the
source): the estimated total is the target's own `du` byte count times
the filesystem scale factor; subdirectories are parsed excluding the
target itself, scaled, kept at 0.01 GB and above, sorted descending and
truncated to 20; `other = estimated_total_gb - shown_total` is printed
only when more than 20 subdirectories survived the filter and the
remainder exceeds 0.01 GB. -/
def dirBreakdownOf (factor : ℚ) (totalBytes : Int) (dirs : List DirEntry) :
    DirResult :=
  let estimated := scaledGB factor totalBytes
  let subdirs := sortDesc (significantOf (1 / 100) factor dirs)
  let shown := subdirs.take 20
  let other := estimated - shownTotal shown
  ⟨shown, estimated, subdirs.length, other,
    decide (20 < subdirs.length) && decide ((1 : ℚ) / 100 < other)⟩

/-- The path-argument directory breakdown from the raw `du` lines:
parse excluding the target itself, then break down. -/
def dirBreakdown (factor : ℚ) (totalBytes : Int) (lines : List String)
    (target : String) : DirResult :=
  dirBreakdownOf factor totalBytes (parseDuLines target lines)

/-- Outcome of the `subprocess.run(du, ..., check=True, timeout=30)`
call inside `get_directory_sizes`: a timeout, a non-zero exit
(`CalledProcessError`), or the stripped stdout lines. -/
inductive DuOutcome where
  | timeout
  | exitFailure
  | ok (lines : List String)

/-- An entry of `get_directory_sizes`: the integer GB size, its
formatted display string, and the path. -/
structure DuEntry where
  sizeGB : Int
  display : String
  path : String
deriving DecidableEq, Repr

/-- Parses one line for `get_directory_sizes`: split at the first tab,
require two fields, parse the integer size (skipping the line on
`ValueError`), and keep only sizes of at least 1 GB. -/
def duParseLine (line : String) : Option (Int × String) :=
  match splitTab1 line with
  | [sz, p] =>
    match pyInt? sz with
    | some n => if 1 ≤ n then some (n, p) else none
    | none => none
  | _ => none

/-- The parsed entries of `get_directory_sizes`: the final (total) line
is always dropped, the rest parsed individually. -/
def duEntries (lines : List String) : List DuEntry :=
  lines.dropLast.filterMap fun line =>
    (duParseLine line).map fun t => ⟨t.1, toString t.1 ++ " GB", t.2⟩

/-- Shallow embedding of `get_directory_sizes` (lines 27-48 of the
source): on timeout or non-zero exit the caught exception yields the
empty list; otherwise parse, sort descending by size, keep the top 5
and return `(display, path)` pairs. -/
def get_directory_sizes : DuOutcome → List (String × String)
  | .timeout => []
  | .exitFailure => []
  | .ok lines =>
    ((sortDescBy (·.sizeGB) (duEntries lines)).take 5).map fun e =>
      (e.display, e.path)

/-- Membership in an insertion step: the inserted element or an element
of the original list. -/
theorem mem_insertDescBy {α β : Type} [LinearOrder β] (key : α → β) (a x : α) :
    ∀ l : List α, x ∈ insertDescBy key a l ↔ x = a ∨ x ∈ l := by
  intro l
  induction l with
  | nil => simp [insertDescBy]
  | cons b t ih =>
    simp only [insertDescBy]
    split
    · simp [List.mem_cons]
    · simp only [List.mem_cons, ih]
      tauto

/-- The stable sort does not change membership. -/
theorem mem_sortDescBy {α β : Type} [LinearOrder β] (key : α → β) (x : α) :
    ∀ l : List α, x ∈ sortDescBy key l ↔ x ∈ l
  | [] => by simp [sortDescBy]
  | a :: l => by
    simp [sortDescBy, mem_insertDescBy, mem_sortDescBy key x l]

/-- Inserting into a descending list keeps it descending. -/
theorem sorted_insertDescBy {α β : Type} [LinearOrder β] (key : α → β) (a : α) :
    ∀ l : List α, l.Pairwise (fun x y => key y ≤ key x) →
      (insertDescBy key a l).Pairwise (fun x y => key y ≤ key x) := by
  intro l
  induction l with
  | nil => intro _; simp [insertDescBy]
  | cons b t ih =>
    intro h
    rw [List.pairwise_cons] at h
    simp only [insertDescBy]
    split
    · rename_i hba
      refine List.Pairwise.cons ?_ (List.Pairwise.cons h.1 h.2)
      intro y hy
      rcases List.mem_cons.mp hy with rfl | hyt
      · exact hba
      · exact le_trans (h.1 y hyt) hba
    · rename_i hba
      push_neg at hba
      refine List.Pairwise.cons ?_ (ih h.2)
      intro y hy
      rcases (mem_insertDescBy key a y t).mp hy with rfl | hyt
      · exact le_of_lt hba
      · exact h.1 y hyt

/-- The stable sort produces a descending list. -/
theorem sorted_sortDescBy {α β : Type} [LinearOrder β] (key : α → β) :
    ∀ l : List α, (sortDescBy key l).Pairwise (fun x y => key y ≤ key x)
  | [] => by simp [sortDescBy]
  | a :: l => sorted_insertDescBy key a _ (sorted_sortDescBy key l)

/-- Stability of the insertion step on a descending list: restricted to
any one key value, insertion puts the new element first and keeps the
rest in order. -/
theorem filter_insertDescBy {α β : Type} [LinearOrder β] (key : α → β)
    (a : α) (k : β) :
    ∀ l : List α, l.Pairwise (fun x y => key y ≤ key x) →
      (insertDescBy key a l).filter (fun e => decide (key e = k)) =
        if key a = k then a :: l.filter (fun e => decide (key e = k))
        else l.filter (fun e => decide (key e = k)) := by
  intro l
  induction l with
  | nil =>
    intro _
    by_cases hk : key a = k <;> simp [insertDescBy, hk]
  | cons b t ih =>
    intro h
    rw [List.pairwise_cons] at h
    simp only [insertDescBy]
    split
    · by_cases hk : key a = k <;> simp [hk, List.filter_cons]
    · rename_i hba
      push_neg at hba
      by_cases hk : key a = k
      · have hbk : ¬(key b = k) := hk ▸ ne_of_gt hba
        simp [List.filter_cons, hbk, ih h.2, hk]
      · simp [List.filter_cons, ih h.2, hk]

/-- Stability of the sort: restricted to any one key value, the sorted
list equals the input list (equal keys stay in enumeration order). -/
theorem filter_sortDescBy {α β : Type} [LinearOrder β] (key : α → β) (k : β) :
    ∀ l : List α,
      (sortDescBy key l).filter (fun e => decide (key e = k)) =
        l.filter (fun e => decide (key e = k))
  | [] => by simp [sortDescBy]
  | a :: l => by
    rw [sortDescBy, filter_insertDescBy key a k _ (sorted_sortDescBy key l),
      filter_sortDescBy key k l]
    by_cases hk : key a = k <;> simp [hk, List.filter_cons]

/-- Sum of proportionally scaled values. -/
theorem sum_scaled (c : ℚ) :
    ∀ l : List Int,
      (l.map fun b : Int => ((b : ℚ) * c) / 1000000000).sum
        = ((l.sum : ℚ) * c) / 1000000000
  | [] => by simp
  | b :: l => by
    rw [List.map_cons, List.sum_cons, sum_scaled c l, List.sum_cons]
    generalize l.sum = S
    push_cast
    ring

/-- The scaled sibling sizes sum to the raw total times the scale
factor. -/
theorem shownTotal_scaleEntries (f : ℚ) :
    ∀ dirs : List DirEntry,
      shownTotal (scaleEntries f dirs) = ((sumBytes dirs : ℚ) * f) / 1000000000
  | [] => by simp [shownTotal, scaleEntries, sumBytes]
  | e :: dirs => by
    have ih := shownTotal_scaleEntries f dirs
    simp only [shownTotal, scaleEntries, sumBytes, List.map_cons,
      List.sum_cons] at ih ⊢
    rw [ih, scaledGB]
    generalize (dirs.map (·.bytes)).sum = S
    push_cast
    ring

/-- Every displayed entry of a level is a scaled sibling meeting the
significance threshold. -/
theorem mem_levelShown {θ f : ℚ} {n : Nat} {dirs : List DirEntry}
    {e : ScaledEntry} (h : e ∈ levelShown θ f n dirs) :
    θ ≤ e.gb ∧ e ∈ scaleEntries f dirs := by
  have h1 : e ∈ sortDesc (significantOf θ f dirs) := List.mem_of_mem_take h
  have h2 : e ∈ significantOf θ f dirs := (mem_sortDescBy _ e _).mp h1
  have h3 := List.mem_filter.mp h2
  exact ⟨by simpa using h3.2, h3.1⟩

/-- A nested level never displays more than 3 entries. -/
theorem subLevel_length_le (θ g : ℚ) (p : String) (oc : SampleOutcome) :
    (subLevel θ g p oc).length ≤ 3 := by
  cases oc with
  | failure => simp [subLevel]
  | output lines =>
    simp only [subLevel, subLevelOf]
    split
    · exact List.length_take_le _ _
    · simp

/-- A list of childless nodes has depth at most 1. -/
theorem depthList_leaves (cs : List ScaledEntry) :
    UsageTree.depthList (cs.map fun c => UsageTree.node c.gb c.path []) ≤ 1 := by
  induction cs with
  | nil => simp [UsageTree.depthList]
  | cons c cs ih =>
    have hd : (UsageTree.node c.gb c.path []).depth = 1 := by
      simp [UsageTree.depth, UsageTree.depthList]
    simp only [List.map_cons, UsageTree.depthList, hd]
    exact max_le (by omega) ih

/-- A parsed `get_directory_sizes` entry has size at least 1 GB. -/
theorem duParseLine_some {line : String} {t : Int × String}
    (h : duParseLine line = some t) : 1 ≤ t.1 := by
  unfold duParseLine at h
  split at h
  · split at h
    · split at h
      · rename_i n hn h1
        cases h
        exact h1
      · cases h
    · cases h
  · cases h

/-- Unpacks a successful container-level breakdown into its defining
components. -/
theorem containerLevelOf_eq_some {u : Int} {dirs : List DirEntry}
    {r : LevelResult} (h : containerLevelOf u dirs = some r) :
    dirs ≠ [] ∧ 0 < sumBytes dirs ∧
      r = ⟨levelShown (1 / 2)
              (scaleFactor ((u : ℚ) * 1000000000) (sumBytes dirs : ℚ)) 5 dirs,
            (u : ℚ) - shownTotal (levelShown (1 / 2)
              (scaleFactor ((u : ℚ) * 1000000000) (sumBytes dirs : ℚ)) 5 dirs),
            decide ((1 : ℚ) / 2 < (u : ℚ) - shownTotal (levelShown (1 / 2)
              (scaleFactor ((u : ℚ) * 1000000000) (sumBytes dirs : ℚ)) 5 dirs))⟩ := by
  simp only [containerLevelOf] at h
  split at h
  · rename_i hcond
    cases h
    exact ⟨hcond.1, hcond.2, rfl⟩
  · cases h

/-- Unpacks a successful volume-level breakdown into its defining
components. -/
theorem volumeLevelOf_eq_some {vb : Int} {dirs : List DirEntry}
    {s : LevelResult} (h : volumeLevelOf vb dirs = some s) :
    dirs ≠ [] ∧ 0 < sumBytes dirs ∧
      s = ⟨levelShown (1 / 10)
              (scaleFactor (vb : ℚ) (sumBytes dirs : ℚ)) 5 dirs,
            bytes_to_gb vb - shownTotal (levelShown (1 / 10)
              (scaleFactor (vb : ℚ) (sumBytes dirs : ℚ)) 5 dirs),
            decide ((1 : ℚ) / 10 < bytes_to_gb vb - shownTotal (levelShown (1 / 10)
              (scaleFactor (vb : ℚ) (sumBytes dirs : ℚ)) 5 dirs))⟩ := by
  simp only [volumeLevelOf] at h
  split at h
  · rename_i hcond
    cases h
    exact ⟨hcond.1, hcond.2, rfl⟩
  · cases h

/-- C1: with non-negative raw sizes whose sum is positive and a
non-negative authoritative total, the Reconciler gives every sibling
the scaled byte count `rawBytes * (authoritativeTotal / Σ rawBytes)`,
and the scaled byte counts over the siblings sum to the authoritative
total exactly (the embedding computes in exact rationals, so the
floating-point rounding caveat disappears). -/
theorem C1_reconciler_proportional_and_exact (dirs : List DirEntry) (A : ℚ)
    (hA : 0 ≤ A) (hraw : ∀ e ∈ dirs, 0 ≤ e.bytes)
    (hpos : 0 < sumBytes dirs) :
    (scaleEntries (scaleFactor A (sumBytes dirs : ℚ)) dirs).map
        (fun e => e.gb * 1000000000)
      = dirs.map (fun e => (e.bytes : ℚ) * (A / (sumBytes dirs : ℚ))) ∧
    shownTotal (scaleEntries (scaleFactor A (sumBytes dirs : ℚ)) dirs)
        * 1000000000 = A := by
  have hT : ((sumBytes dirs : ℚ)) ≠ 0 := by
    have h0 : (0 : ℚ) < (sumBytes dirs : ℚ) := by exact_mod_cast hpos
    exact ne_of_gt h0
  constructor
  · simp only [scaleEntries, List.map_map]
    apply List.map_congr_left
    intro e _
    simp only [Function.comp, scaledGB, scaleFactor]
    field_simp
    ring
  · rw [shownTotal_scaleEntries, scaleFactor]
    field_simp

/-- C2: in all three breakdown modes the `other` bucket is the
authoritative total minus the sum of the shown entries, so the shown
entries plus `other` sum back to the authoritative total exactly (for
the network volume, to its rounded GB figure, which is the total the
level reports). -/
theorem C2_shown_plus_other_is_total
    (u : Int) (d1 : List DirEntry) (r : LevelResult)
    (hc : containerLevelOf u d1 = some r)
    (vb : Int) (d2 : List DirEntry) (s : LevelResult)
    (hv : volumeLevelOf vb d2 = some s)
    (f : ℚ) (tb : Int) (d3 : List DirEntry) :
    (r.other = (u : ℚ) - shownTotal r.shown ∧
      shownTotal r.shown + r.other = (u : ℚ)) ∧
    (s.other = bytes_to_gb vb - shownTotal s.shown ∧
      shownTotal s.shown + s.other = bytes_to_gb vb) ∧
    ((dirBreakdownOf f tb d3).other
        = (dirBreakdownOf f tb d3).estimatedTotalGB
          - shownTotal (dirBreakdownOf f tb d3).shown ∧
      shownTotal (dirBreakdownOf f tb d3).shown + (dirBreakdownOf f tb d3).other
        = (dirBreakdownOf f tb d3).estimatedTotalGB) := by
  obtain ⟨-, -, rfl⟩ := containerLevelOf_eq_some hc
  obtain ⟨-, -, rfl⟩ := volumeLevelOf_eq_some hv
  refine ⟨⟨rfl, by ring⟩, ⟨rfl, by ring⟩, ⟨rfl, by simp [dirBreakdownOf]⟩⟩

/-- C3: the displayed entries of every level are sorted descending by
scaled size, and restricted to any one scaled-size value the displayed
entries are a sublist of the scaled siblings in enumeration order (the
sort is stable, so ties keep the sampler's output order). -/
theorem C3_shown_sorted_and_stable (θ f : ℚ) (n : Nat) (dirs : List DirEntry) :
    (levelShown θ f n dirs).Pairwise (fun a b => b.gb ≤ a.gb) ∧
    ∀ k : ℚ,
      List.Sublist ((levelShown θ f n dirs).filter (fun e => decide (e.gb = k)))
        ((scaleEntries f dirs).filter (fun e => decide (e.gb = k))) := by
  constructor
  · exact List.Pairwise.sublist (List.take_sublist n _)
      (sorted_sortDescBy (fun e : ScaledEntry => e.gb)
        (significantOf θ f dirs))
  · intro k
    have h1 : List.Sublist (levelShown θ f n dirs)
        (sortDesc (significantOf θ f dirs)) :=
      List.take_sublist n _
    have h2 := h1.filter (fun e => decide (e.gb = k))
    have h3 : (sortDesc (significantOf θ f dirs)).filter
          (fun e => decide (e.gb = k))
        = (significantOf θ f dirs).filter (fun e => decide (e.gb = k)) :=
      filter_sortDescBy (fun e : ScaledEntry => e.gb) k _
    have h4 : List.Sublist
        ((significantOf θ f dirs).filter (fun e => decide (e.gb = k)))
        ((scaleEntries f dirs).filter (fun e => decide (e.gb = k))) :=
      (List.filter_sublist _).filter _
    exact (h3 ▸ h2).trans h4

/-- C4: no displayed entry of any level is below that level's
significance threshold, and in each mode the `(other)` line appears
exactly when the remainder strictly exceeds the level's threshold — in
particular it is omitted whenever the remainder is at or below it (the
path-argument mode further requires more than 20 filtered entries). -/
theorem C4_threshold_law (θ f : ℚ) (n : Nat) (dirs : List DirEntry)
    (u : Int) (d1 : List DirEntry) (r : LevelResult)
    (hc : containerLevelOf u d1 = some r)
    (vb : Int) (d2 : List DirEntry) (s : LevelResult)
    (hv : volumeLevelOf vb d2 = some s)
    (g : ℚ) (tb : Int) (d3 : List DirEntry) :
    (∀ e ∈ levelShown θ f n dirs, θ ≤ e.gb) ∧
    (∀ e ∈ r.shown, (1 : ℚ) / 2 ≤ e.gb) ∧
    (r.otherShown = true ↔ (1 : ℚ) / 2 < r.other) ∧
    (∀ e ∈ s.shown, (1 : ℚ) / 10 ≤ e.gb) ∧
    (s.otherShown = true ↔ (1 : ℚ) / 10 < s.other) ∧
    (∀ e ∈ (dirBreakdownOf g tb d3).shown, (1 : ℚ) / 100 ≤ e.gb) ∧
    ((dirBreakdownOf g tb d3).otherShown = true →
      (1 : ℚ) / 100 < (dirBreakdownOf g tb d3).other) ∧
    ((dirBreakdownOf g tb d3).other ≤ (1 : ℚ) / 100 →
      (dirBreakdownOf g tb d3).otherShown = false) := by
  obtain ⟨-, -, rfl⟩ := containerLevelOf_eq_some hc
  obtain ⟨-, -, rfl⟩ := volumeLevelOf_eq_some hv
  refine ⟨fun e he => (mem_levelShown he).1,
    fun e he => (mem_levelShown he).1,
    by simp,
    fun e he => (mem_levelShown he).1,
    by simp,
    ?_, ?_, ?_⟩
  · intro e he
    simp only [dirBreakdownOf] at he
    have h1 : e ∈ sortDesc (significantOf (1 / 100) g d3) :=
      List.mem_of_mem_take he
    have h2 := List.mem_filter.mp ((mem_sortDescBy _ e _).mp h1)
    simpa using h2.2
  · intro h
    simp only [dirBreakdownOf, Bool.and_eq_true, decide_eq_true_eq] at h
    exact h.2
  · intro h
    simp only [dirBreakdownOf] at h ⊢
    rw [Bool.and_eq_false_iff]
    exact Or.inr (decide_eq_false (not_lt.mpr h))

/-- C5: degenerate inputs are safe.  A zero raw sum makes the container
breakdown skip scaling entirely (`none`: the subtree is reported as
unestimatable, nothing is scaled and the guarded division is never
taken); a zero authoritative total makes every scaled size 0 and the
resulting level shows nothing; and the path-argument scale factors fall
back to the identity 1 instead of dividing by a non-positive `du`
total.  All functions involved are total, so no error is raised. -/
theorem C5_degenerate_inputs_safe
    (u a t : Int) (dirs0 dirs1 : List DirEntry) (T : ℚ) (d : List DirEntry)
    (hz : sumBytes dirs0 = 0) (ht : t ≤ 0) :
    containerLevelOf u dirs0 = none ∧
    (∀ e ∈ scaleEntries (scaleFactor 0 T) dirs1, e.gb = 0) ∧
    (∀ r, containerLevelOf 0 d = some r →
      r.shown = [] ∧ r.other = 0 ∧ r.otherShown = false) ∧
    dirScaleVolume a t = 1 ∧ dirScaleContainer a t = 1 := by
  refine ⟨?_, ?_, ?_, ?_, ?_⟩
  · simp [containerLevelOf, hz]
  · intro e he
    simp only [scaleEntries, List.mem_map] at he
    obtain ⟨x, -, rfl⟩ := he
    simp [scaledGB, scaleFactor]
  · intro r hr
    obtain ⟨-, -, rfl⟩ := containerLevelOf_eq_some hr
    have hfac : scaleFactor (((0 : Int) : ℚ) * 1000000000) (sumBytes d : ℚ) = 0 := by
      simp [scaleFactor]
    have hsig : significantOf (1 / 2)
        (scaleFactor (((0 : Int) : ℚ) * 1000000000) (sumBytes d : ℚ)) d = [] := by
      rw [significantOf, List.filter_eq_nil_iff]
      intro e he
      simp only [scaleEntries, hfac, List.mem_map] at he
      obtain ⟨x, -, rfl⟩ := he
      simp [scaledGB]
    have hshown : levelShown (1 / 2)
        (scaleFactor (((0 : Int) : ℚ) * 1000000000) (sumBytes d : ℚ)) 5 d = [] := by
      rw [levelShown, hsig]
      simp [sortDesc, sortDescBy]
    refine ⟨hshown, ?_, ?_⟩
    · rw [hshown]
      simp [shownTotal]
    · rw [hshown]
      norm_num [shownTotal]
  · simp [dirScaleVolume, not_lt.mpr ht]
  · simp [dirScaleContainer, not_lt.mpr ht]

/-- C6: a failed sampling call yields the empty entry set rather than
an exception: `get_directory_sizes` returns `[]` on a timeout, on a
non-zero exit, and when every output line is unparsable; and a failed
nested sampling call contributes no children, so the caller's report
continues without that subtree. -/
theorem C6_sampler_failure_yields_empty (ls : List String) (θ g : ℚ)
    (p : String) (hbad : ∀ l ∈ ls, duParseLine l = none) :
    get_directory_sizes .timeout = [] ∧
    get_directory_sizes .exitFailure = [] ∧
    get_directory_sizes (.ok ls) = [] ∧
    subLevel θ g p .failure = [] := by
  refine ⟨rfl, rfl, ?_, rfl⟩
  have hde : duEntries ls = [] := by
    rw [duEntries, List.filterMap_eq_nil_iff]
    intro l hl
    rw [hbad l ((List.dropLast_sublist ls).subset hl)]
    rfl
  simp [get_directory_sizes, hde, sortDescBy]

/-- C7: the nested level's authoritative total is the parent entry's
own scaled size — the nested scale factor divides `parentGB * 1e9`
(the parent's scaled byte count, not its raw size and not the parent
level's total) by the children's raw sum — and over all children the
scaled sizes then sum exactly to the parent's scaled size, preserving
the reconciliation invariant one level down. -/
theorem C7_child_level_reconciles_to_parent (θ g : ℚ) (dirs : List DirEntry)
    (hne : dirs ≠ []) (hpos : 0 < sumBytes dirs) :
    subLevelOf θ g dirs
        = levelShown θ (scaleFactor (g * 1000000000) (sumBytes dirs : ℚ)) 3 dirs ∧
    shownTotal (scaleEntries
        (scaleFactor (g * 1000000000) (sumBytes dirs : ℚ)) dirs) = g := by
  have hT : ((sumBytes dirs : ℚ)) ≠ 0 := by
    have h0 : (0 : ℚ) < (sumBytes dirs : ℚ) := by exact_mod_cast hpos
    exact ne_of_gt h0
  constructor
  · simp [subLevelOf, hne, hpos]
  · rw [shownTotal_scaleEntries, scaleFactor]
    field_simp

/-- C8: every two-level container report is a tree with fan-out at most
5 at the root and at most 3 below it, and with depth at most
`maxDepth = 2`: the construction descends exactly one level below the
root, and no sampled input can make it deeper. -/
theorem C8_tree_bounds (u : Int) (dirs : List DirEntry)
    (samples : String → SampleOutcome) (r : Report)
    (h : containerReportOf u dirs samples = some r) :
    r.shown.length ≤ 5 ∧
    (∀ te ∈ r.shown, te.children.length ≤ 3) ∧
    ∀ tr ∈ reportTrees r, tr.depth ≤ 2 := by
  simp only [containerReportOf, Option.map_eq_some'] at h
  obtain ⟨lr, hlr, rfl⟩ := h
  obtain ⟨-, -, rfl⟩ := containerLevelOf_eq_some hlr
  refine ⟨?_, ?_, ?_⟩
  · simp only [reportOf, List.length_map, levelShown]
    exact List.length_take_le _ _
  · intro te hte
    simp only [reportOf, List.mem_map] at hte
    obtain ⟨e, -, rfl⟩ := hte
    exact subLevel_length_le _ _ _ _
  · intro tr htr
    simp only [reportTrees, List.mem_map] at htr
    obtain ⟨te, -, rfl⟩ := htr
    have hl := depthList_leaves te.children
    simp only [UsageTree.depth]
    omega

/-- C9: a failure while sampling one child subtree is local: the top
level's entries, their already-computed scaled sizes and the `other`
bucket never depend on the child outcomes; the failed entry simply has
no children; and every entry on a different path keeps exactly the
children obtained from its own sampling outcome. -/
theorem C9_child_failure_is_local (θ : ℚ) (r : LevelResult)
    (f g : String → SampleOutcome) (p : String)
    (hfp : f p = SampleOutcome.failure)
    (hagree : ∀ q, q ≠ p → f q = g q) :
    (reportOf θ r f).shown.map (·.entry) = r.shown ∧
    (reportOf θ r f).other = r.other ∧
    (reportOf θ r f).otherShown = r.otherShown ∧
    (∀ te ∈ (reportOf θ r f).shown, te.entry.path = p → te.children = []) ∧
    (reportOf θ r f).shown.length = (reportOf θ r g).shown.length ∧
    ∀ i (hi : i < (reportOf θ r f).shown.length)
      (hj : i < (reportOf θ r g).shown.length),
      ((reportOf θ r f).shown.get ⟨i, hi⟩).entry.path ≠ p →
        (reportOf θ r f).shown.get ⟨i, hi⟩
          = (reportOf θ r g).shown.get ⟨i, hj⟩ := by
  refine ⟨?_, rfl, rfl, ?_, ?_, ?_⟩
  · simp only [reportOf, List.map_map]
    have hid : ((fun x : TopEntry => x.entry) ∘
        fun e => (⟨e, subLevel θ e.gb e.path (f e.path)⟩ : TopEntry)) = id := rfl
    rw [hid, List.map_id]
  · intro te hte hpath
    simp only [reportOf, List.mem_map] at hte
    obtain ⟨e, -, rfl⟩ := hte
    simp only at hpath
    simp only [hpath, hfp, subLevel]
  · simp [reportOf]
  · intro i hi hj hpath
    simp only [reportOf, List.get_eq_getElem, List.getElem_map] at hpath ⊢
    rw [hagree _ hpath]

/-- C10: `get_directory_sizes` ranks raw, unreconciled sizes with no
scale factor applied: it returns at most 5 entries; the ranked entries
all have integer size at least 1 GB and are sorted descending by size;
every entry's size and path come verbatim from some parsed line; a
line whose size field is non-numeric yields no entry; and the final
line of the output is always excluded, whatever it contains. -/
theorem C10_du_helper_contract (lines : List String) :
    (get_directory_sizes (.ok lines)).length ≤ 5 ∧
    ((sortDescBy (fun e : DuEntry => e.sizeGB) (duEntries lines)).take 5).Pairwise
      (fun a b => b.sizeGB ≤ a.sizeGB) ∧
    (∀ e ∈ (sortDescBy (fun e : DuEntry => e.sizeGB) (duEntries lines)).take 5,
      1 ≤ e.sizeGB) ∧
    (∀ e ∈ duEntries lines, ∃ line ∈ lines.dropLast,
      duParseLine line = some (e.sizeGB, e.path)) ∧
    (∀ xs : List String, ∀ l1 l2 : String,
      duEntries (xs ++ [l1]) = duEntries (xs ++ [l2])) ∧
    (∀ line sz p, splitTab1 line = [sz, p] → pyInt? sz = none →
      duParseLine line = none) := by
  have hmem : ∀ e ∈ duEntries lines, ∃ line ∈ lines.dropLast,
      duParseLine line = some (e.sizeGB, e.path) ∧ 1 ≤ e.sizeGB := by
    intro e he
    simp only [duEntries, List.mem_filterMap, Option.map_eq_some'] at he
    obtain ⟨line, hline, t, ht, rfl⟩ := he
    exact ⟨line, hline, ht, duParseLine_some ht⟩
  refine ⟨?_, ?_, ?_, ?_, ?_, ?_⟩
  · simp only [get_directory_sizes, List.length_map]
    exact List.length_take_le _ _
  · exact List.Pairwise.sublist (List.take_sublist 5 _)
      (sorted_sortDescBy (fun e : DuEntry => e.sizeGB) (duEntries lines))
  · intro e he
    have h1 : e ∈ duEntries lines :=
      (mem_sortDescBy _ e _).mp (List.mem_of_mem_take he)
    obtain ⟨-, -, -, h2⟩ := hmem e h1
    exact h2
  · intro e he
    obtain ⟨line, hline, ht, -⟩ := hmem e he
    exact ⟨line, hline, ht⟩
  · intro xs l1 l2
    simp [duEntries, List.dropLast_concat]
  · intro line sz p h1 h2
    unfold duParseLine
    rw [h1]
    simp [h2]

/-- Witness for C1 at the spec's scenario: raw sizes 40, 30, 20, 10
with authoritative total 150 scale to sizes summing to exactly 150. -/
theorem C1_witness :
    (0 : ℚ) ≤ 150 ∧
    (∀ e ∈ ([⟨40, "/a"⟩, ⟨30, "/b"⟩, ⟨20, "/c"⟩, ⟨10, "/d"⟩] : List DirEntry),
      0 ≤ e.bytes) ∧
    0 < sumBytes [⟨40, "/a"⟩, ⟨30, "/b"⟩, ⟨20, "/c"⟩, ⟨10, "/d"⟩] ∧
    shownTotal (scaleEntries
        (scaleFactor 150
          (sumBytes [⟨40, "/a"⟩, ⟨30, "/b"⟩, ⟨20, "/c"⟩, ⟨10, "/d"⟩] : ℚ))
        [⟨40, "/a"⟩, ⟨30, "/b"⟩, ⟨20, "/c"⟩, ⟨10, "/d"⟩]) * 1000000000 = 150 :=
  ⟨by norm_num, by decide, by decide,
    (C1_reconciler_proportional_and_exact
      [⟨40, "/a"⟩, ⟨30, "/b"⟩, ⟨20, "/c"⟩, ⟨10, "/d"⟩] 150
      (by norm_num) (by decide) (by decide)).2⟩

/-- Witness for C2 on concrete container and volume levels. -/
theorem C2_witness :
    containerLevelOf 3 [⟨2000000000, "/usr"⟩, ⟨1000000000, "/opt"⟩]
      = some ⟨[⟨2, "/usr"⟩, ⟨1, "/opt"⟩], 0, false⟩ ∧
    volumeLevelOf 2000000000
        [⟨1000000000, "/ai_network_volume/models"⟩,
          ⟨1000000000, "/ai_network_volume/data"⟩]
      = some ⟨[⟨1, "/ai_network_volume/models"⟩,
          ⟨1, "/ai_network_volume/data"⟩], 0, false⟩ ∧
    shownTotal (LevelResult.mk [⟨2, "/usr"⟩, ⟨1, "/opt"⟩] 0 false).shown
        + (LevelResult.mk [⟨2, "/usr"⟩, ⟨1, "/opt"⟩] 0 false).other
      = ((3 : Int) : ℚ) := by
  have hc : containerLevelOf 3 [⟨2000000000, "/usr"⟩, ⟨1000000000, "/opt"⟩]
      = some ⟨[⟨2, "/usr"⟩, ⟨1, "/opt"⟩], 0, false⟩ := by
    norm_num [containerLevelOf, sumBytes, scaleFactor, levelShown, significantOf,
      scaleEntries, scaledGB, sortDesc, sortDescBy, insertDescBy, shownTotal,
      List.cons_ne_nil]
  have hv : volumeLevelOf 2000000000
      [⟨1000000000, "/ai_network_volume/models"⟩,
        ⟨1000000000, "/ai_network_volume/data"⟩]
      = some ⟨[⟨1, "/ai_network_volume/models"⟩,
          ⟨1, "/ai_network_volume/data"⟩], 0, false⟩ := by
    norm_num [volumeLevelOf, sumBytes, scaleFactor, levelShown, significantOf,
      scaleEntries, scaledGB, sortDesc, sortDescBy, insertDescBy, shownTotal,
      bytes_to_gb, pyRoundHalfEven, List.cons_ne_nil]
  exact ⟨hc, hv,
    (C2_shown_plus_other_is_total 3 _ _ hc 2000000000 _ _ hv 1 0 []).1.2⟩

/-- Witness for C3 on a concrete level. -/
theorem C3_witness :
    (levelShown (1 / 2) 1 5 [⟨2000000000, "/usr"⟩]).Pairwise
      (fun a b => b.gb ≤ a.gb) :=
  (C3_shown_sorted_and_stable (1 / 2) 1 5 [⟨2000000000, "/usr"⟩]).1

/-- Witness for C4 on concrete container and volume levels. -/
theorem C4_witness :
    containerLevelOf 3 [⟨2000000000, "/usr"⟩, ⟨1000000000, "/opt"⟩]
      = some ⟨[⟨2, "/usr"⟩, ⟨1, "/opt"⟩], 0, false⟩ ∧
    volumeLevelOf 2000000000
        [⟨1000000000, "/ai_network_volume/models"⟩,
          ⟨1000000000, "/ai_network_volume/data"⟩]
      = some ⟨[⟨1, "/ai_network_volume/models"⟩,
          ⟨1, "/ai_network_volume/data"⟩], 0, false⟩ ∧
    ∀ e ∈ levelShown (1 / 2) 1 5 ([] : List DirEntry), (1 : ℚ) / 2 ≤ e.gb := by
  have hc : containerLevelOf 3 [⟨2000000000, "/usr"⟩, ⟨1000000000, "/opt"⟩]
      = some ⟨[⟨2, "/usr"⟩, ⟨1, "/opt"⟩], 0, false⟩ := by
    norm_num [containerLevelOf, sumBytes, scaleFactor, levelShown, significantOf,
      scaleEntries, scaledGB, sortDesc, sortDescBy, insertDescBy, shownTotal,
      List.cons_ne_nil]
  have hv : volumeLevelOf 2000000000
      [⟨1000000000, "/ai_network_volume/models"⟩,
        ⟨1000000000, "/ai_network_volume/data"⟩]
      = some ⟨[⟨1, "/ai_network_volume/models"⟩,
          ⟨1, "/ai_network_volume/data"⟩], 0, false⟩ := by
    norm_num [volumeLevelOf, sumBytes, scaleFactor, levelShown, significantOf,
      scaleEntries, scaledGB, sortDesc, sortDescBy, insertDescBy, shownTotal,
      bytes_to_gb, pyRoundHalfEven, List.cons_ne_nil]
  exact ⟨hc, hv,
    (C4_threshold_law (1 / 2) 1 5 [] 3 _ _ hc 2000000000 _ _ hv 1 0 []).1⟩

/-- Witness for C5 on a zero raw sum and a non-positive denominator. -/
theorem C5_witness :
    sumBytes [⟨0, "/x"⟩] = 0 ∧ (0 : Int) ≤ 0 ∧
    containerLevelOf 7 [⟨0, "/x"⟩] = none :=
  ⟨by decide, by decide,
    (C5_degenerate_inputs_safe 7 5 0 [⟨0, "/x"⟩] [⟨3, "/y"⟩] 4 []
      (by decide) (by decide)).1⟩

/-- Witness for C6 on fully unparsable sampler output. -/
theorem C6_witness :
    (∀ l ∈ ["garbage", "12 34"], duParseLine l = none) ∧
    get_directory_sizes (.ok ["garbage", "12 34"]) = [] :=
  ⟨by decide,
    (C6_sampler_failure_yields_empty ["garbage", "12 34"] (1 / 2) 1 "/p"
      (by decide)).2.2.1⟩

/-- Witness for C7: children with raw sizes 30 and 10 under a parent of
scaled size 4 GB get scaled sizes summing to exactly 4 GB. -/
theorem C7_witness :
    ([⟨30, "/a"⟩, ⟨10, "/b"⟩] : List DirEntry) ≠ [] ∧
    0 < sumBytes [⟨30, "/a"⟩, ⟨10, "/b"⟩] ∧
    shownTotal (scaleEntries
        (scaleFactor (4 * 1000000000)
          (sumBytes [⟨30, "/a"⟩, ⟨10, "/b"⟩] : ℚ))
        [⟨30, "/a"⟩, ⟨10, "/b"⟩]) = 4 :=
  ⟨by decide, by decide,
    (C7_child_level_reconciles_to_parent (1 / 2) 4 [⟨30, "/a"⟩, ⟨10, "/b"⟩]
      (by decide) (by decide)).2⟩

/-- Witness for C8 on a concrete two-level report. -/
theorem C8_witness :
    containerReportOf 3 [⟨2000000000, "/usr"⟩, ⟨1000000000, "/opt"⟩]
        (fun _ => SampleOutcome.failure)
      = some ⟨[⟨⟨2, "/usr"⟩, []⟩, ⟨⟨1, "/opt"⟩, []⟩], 0, false⟩ ∧
    (Report.mk [⟨⟨2, "/usr"⟩, []⟩, ⟨⟨1, "/opt"⟩, []⟩] 0 false).shown.length ≤ 5 := by
  have h : containerReportOf 3 [⟨2000000000, "/usr"⟩, ⟨1000000000, "/opt"⟩]
      (fun _ => SampleOutcome.failure)
      = some ⟨[⟨⟨2, "/usr"⟩, []⟩, ⟨⟨1, "/opt"⟩, []⟩], 0, false⟩ := by
    norm_num [containerReportOf, containerLevelOf, reportOf, subLevel, sumBytes,
      scaleFactor, levelShown, significantOf, scaleEntries, scaledGB, sortDesc,
      sortDescBy, insertDescBy, shownTotal, List.cons_ne_nil]
  exact ⟨h, (C8_tree_bounds 3 _ _ _ h).1⟩

/-- Witness for C9: with every nested sampling call failing, the top
level of a concrete report keeps exactly its own entries. -/
theorem C9_witness :
    (fun _ : String => SampleOutcome.failure) "/usr" = SampleOutcome.failure ∧
    (reportOf (1 / 2) ⟨[⟨2, "/usr"⟩], 0, false⟩
        (fun _ => SampleOutcome.failure)).shown.map (fun te => te.entry)
      = [⟨2, "/usr"⟩] :=
  ⟨rfl,
    (C9_child_failure_is_local (1 / 2) ⟨[⟨2, "/usr"⟩], 0, false⟩
      (fun _ => SampleOutcome.failure) (fun _ => SampleOutcome.failure) "/usr"
      rfl (fun _ _ => rfl)).1⟩

/-- Witness for C10 on concrete `du` output with one non-numeric line. -/
theorem C10_witness :
    (get_directory_sizes (.ok ["3\t/a", "bad\t/b", "7\t/c", "99\t/"])).length ≤ 5 ∧
    duParseLine "bad\t/b" = none :=
  ⟨(C10_du_helper_contract ["3\t/a", "bad\t/b", "7\t/c", "99\t/"]).1,
    (C10_du_helper_contract ["3\t/a", "bad\t/b", "7\t/c", "99\t/"]).2.2.2.2.2
      "bad\t/b" "bad" "/b" (by decide) (by decide)⟩

end DeviceStats

